import Mathlib

/-!
Verification of the FHIR API client (src/client.py, src/utils.py, src/config.py).

The client code is shallowly embedded: the HTTP layer is modelled by passing
the server's reply (or a transport exception) as an explicit argument, JSON
values are a small inductive type mirroring what `response.json()` can
produce, and Python exceptions raised inside the client (`KeyError`,
`TypeError`, `AttributeError`, transport `ConnectionError`) are modelled with
`Except PyError`.  All definitions follow the structure of the Python source;
definitions whose names match the source (`send_request`, `post_or_put`,
`post_or_put_all`, `delete_all`, `errors_from_response`, `response_content`,
`fhir_version_headers`, `check_service_status`) are direct translations.
-/

/-- Python exceptions that the client code under verification can raise. -/
inductive PyError where
  | keyError
  | typeError
  | attributeError
  | connectionError
deriving DecidableEq

/-- JSON values as produced by `response.json()` (Python dicts are modelled as
association lists with distinct keys, in insertion order; JSON numbers that the
claims exercise are integers). -/
inductive JsonVal where
  | null
  | bool (b : Bool)
  | num (n : Int)
  | str (s : String)
  | arr (elems : List JsonVal)
  | obj (fields : List (String × JsonVal))

/-- Lookup in a Python dict (association list with distinct keys). -/
def lookupAssoc : List (String × JsonVal) → String → Option JsonVal
  | [], _ => none
  | (k, v) :: rest, key => if k == key then some v else lookupAssoc rest key

/-- Python truthiness (`bool(x)`) of a JSON value: `None`, `False`, `0`, `""`,
`[]` and the empty dict are falsy. -/
def JsonVal.isFalsy : JsonVal → Bool
  | .null => true
  | .bool b => !b
  | .num n => n == 0
  | .str s => s == ""
  | .arr elems => elems.isEmpty
  | .obj fields => fields.isEmpty

/-- Python `d[k]` on a JSON value: `KeyError` when the key is absent from a
dict, `TypeError` when `d` is not a dict (string subscripts on non-dicts). -/
def pySubscript : JsonVal → String → Except PyError JsonVal
  | .obj fields, k =>
    match lookupAssoc fields k with
    | some v => Except.ok v
    | none => Except.error PyError.keyError
  | _, _ => Except.error PyError.typeError

/-- Python `d.get(k)` on a JSON value: `None`-or-value on a dict,
`AttributeError` on anything else (only dicts have `.get`). -/
def pyDictGet : JsonVal → String → Except PyError (Option JsonVal)
  | .obj fields, k => Except.ok (lookupAssoc fields k)
  | _, _ => Except.error PyError.attributeError

/-- Python `for x in v`: lists yield their elements, dicts their keys, strings
their characters; other values are not iterable (`TypeError`). -/
def pyIter : JsonVal → Except PyError (List JsonVal)
  | .arr elems => Except.ok elems
  | .obj fields => Except.ok (fields.map fun p => JsonVal.str p.fst)
  | .str s => Except.ok (s.data.map fun c => JsonVal.str (String.mk [c]))
  | _ => Except.error PyError.typeError

/-- Python `v == s` for a string literal `s`: true only when `v` is that
string (comparing a dict/list/number with a string is `False`, not an error). -/
def pyEqStr : JsonVal → String → Bool
  | .str t, s => t == s
  | _, _ => false

/-- Python `str(v)` as used in f-string interpolation, for the scalar values
the claims exercise; container rendering is abbreviated (no claim reaches it:
the delete-cascade claims constrain `resourceType` and `id` to be strings). -/
def pyStr : JsonVal → String
  | .str s => s
  | .num n => toString n
  | .bool true => "True"
  | .bool false => "False"
  | .null => "None"
  | .arr _ => "[...]"
  | .obj _ => "\x7b...\x7d"

/-- ASCII upper-casing of one character (`str.upper` restricted to ASCII,
which covers the HTTP method names the client uses). -/
def asciiUpper (c : Char) : Char :=
  if 'a' ≤ c ∧ c ≤ 'z' then Char.ofNat (c.toNat - 32) else c

/-- ASCII lower-casing of one character. -/
def asciiLower (c : Char) : Char :=
  if 'A' ≤ c ∧ c ≤ 'Z' then Char.ofNat (c.toNat + 32) else c

/-- Python `s.upper()` (ASCII fragment). -/
def pyUpper (s : String) : String := String.mk (s.data.map asciiUpper)

/-- Python `s.lower()` (ASCII fragment). -/
def pyLower (s : String) : String := String.mk (s.data.map asciiLower)

/-- Helper for `splitOnDot`: splits a character list at every dot. -/
def splitOnDotChars : List Char → List Char → List String
  | [], acc => [String.mk acc.reverse]
  | c :: cs, acc =>
    if c = '.' then String.mk acc.reverse :: splitOnDotChars cs []
    else splitOnDotChars cs (c :: acc)

/-- Python `s.split('.')` (e.g. `"4.0.0"` to `["4", "0", "0"]`,
`""` to `[""]`). -/
def splitOnDot (s : String) : List String := splitOnDotChars s.data []

/-- Content of an HTTP response after `FhirApiClient._response_content`:
either the parsed JSON body or the raw response text. -/
inductive RespContent where
  | json (v : JsonVal)
  | text (s : String)

/-- Python truthiness of a response-content value. -/
def RespContent.isFalsy : RespContent → Bool
  | .json v => v.isFalsy
  | .text s => s == ""

/-- An HTTP response as the `requests` session hands it to the client:
status code, raw body text, the result of attempting `response.json()`
(`some v` exactly when the body parses as JSON), and the post-redirect
`response.url`. -/
structure HttpResponse where
  status_code : Nat
  text : String
  jsonParsed : Option JsonVal
  url : String

/-- `FhirApiClient._response_content` (src/client.py lines 284-293): parse the
body as JSON, falling back to the raw text on `JSONDecodeError`. -/
def response_content (resp : HttpResponse) : RespContent :=
  match resp.jsonParsed with
  | some v => RespContent.json v
  | none => RespContent.text resp.text

/-- One step of the list comprehension in `_errors_from_response`:
`issue['severity'] == 'error'`.  A non-dict entry raises `TypeError`
(string subscript), a dict entry without the key raises `KeyError`. -/
def issueSeverityError : JsonVal → Except PyError Bool
  | .obj fields =>
    match lookupAssoc fields "severity" with
    | some v => Except.ok (pyEqStr v "error")
    | none => Except.error PyError.keyError
  | _ => Except.error PyError.typeError

/-- The list comprehension
`[issue for issue in issues if issue['severity'] == 'error']`, evaluated left
to right with the first raised exception aborting it. -/
def errorsFilter : List JsonVal → Except PyError (List JsonVal)
  | [] => Except.ok []
  | issue :: rest =>
    match issueSeverityError issue with
    | Except.error e => Except.error e
    | Except.ok isErr =>
      match errorsFilter rest with
      | Except.error e => Except.error e
      | Except.ok tail => Except.ok (if isErr then issue :: tail else tail)

/-- `FhirApiClient._errors_from_response` (src/client.py lines 295-301):
`response_body = response_body or {}` followed by
`[issue for issue in response_body.get('issue', []) if issue['severity'] == 'error']`.
A falsy body is replaced by the empty dict; `.get` on a non-dict body raises
`AttributeError`. -/
def errors_from_response (body : RespContent) : Except PyError (List JsonVal) :=
  let body' := if body.isFalsy then RespContent.json (JsonVal.obj []) else body
  match body' with
  | RespContent.json (JsonVal.obj fields) =>
    match pyIter ((lookupAssoc fields "issue").getD (JsonVal.arr [])) with
    | Except.error e => Except.error e
    | Except.ok issues => errorsFilter issues
  | _ => Except.error PyError.attributeError

/-- The `success_status` table of `send_request` (src/client.py lines
223-228), looked up with `.get(name, {})`: unknown methods get the empty
set. -/
def success_status (m : String) : List Nat :=
  if m = "GET" then [200]
  else if m = "POST" then [200, 201]
  else if m = "PUT" then [200, 201]
  else if m = "DELETE" then [204, 200]
  else []

/-- Client-instance configuration (`FhirApiClient.__init__`): base URL,
optional auth credential (opaque here) and optional FHIR version string. -/
structure ClientConfig where
  base_url : String
  auth : Option String
  fhir_version : Option String

/-- The per-call `request_kwargs` fields that the claims observe: an optional
auth credential and the supplied headers dict. -/
structure CallKwargs where
  auth : Option String
  headers : List (String × String)

/-- The outgoing request actually handed to the `requests` session after
`send_request` has applied its auth and header policies. -/
structure SentRequest where
  method : String
  url : String
  auth : Option String
  headers : List (String × String)

/-- The result dict of `send_request`:
`{'status_code': ..., 'request_url': ..., 'response': ...}`.  The source
passes the response URL through `urllib.parse.unquote`; that stdlib
percent-decoding affects only this diagnostic string and is not modelled. -/
structure SendResult where
  status_code : Nat
  request_url : String
  response : RespContent

/-- `FhirApiClient._fhir_version_headers` (src/client.py lines 267-282):
empty when no FHIR version is configured, otherwise a Content-Type built from
the major version (the first `'.'`-separated field). -/
def fhir_version_headers : Option String → List (String × String)
  | none => []
  | some v =>
    if v = "" then []
    else
      [("Content-Type",
        "application/fhir+json; fhirVersion=" ++ (splitOnDot v).headD "" ++ ".0")]

/-- The request `send_request` sends (src/client.py lines 202-216): when the
client has an auth credential, `request_kwargs.update({'auth': self.auth})`
overwrites any per-call credential; a Content-Type header is added only when
the supplied headers lack one; the method name is lower-cased for the
`getattr(self.session, ...)` dispatch. -/
def sent_request_of (cfg : ClientConfig) (method url : String) (kw : CallKwargs) :
    SentRequest :=
  { method := pyLower method
    url := url
    auth :=
      match cfg.auth with
      | some a => some a
      | none => kw.auth
    headers :=
      if kw.headers.any (fun p => p.fst == "Content-Type") then kw.headers
      else kw.headers ++ fhir_version_headers cfg.fhir_version }

/-- `FhirApiClient.send_request` (src/client.py lines 177-252).  The server's
reply is passed in as `resp`; the returned triple is the request that was
sent, the success classification, and the result dict.  An exception raised
by the issue scan propagates (there is no handler in the source). -/
def send_request (cfg : ClientConfig) (method url : String) (kw : CallKwargs)
    (resp : HttpResponse) : Except PyError (SentRequest × Bool × SendResult) :=
  let sent := sent_request_of cfg method url kw
  let resp_content := response_content resp
  let m := pyUpper method
  let result : SendResult :=
    { status_code := resp.status_code, request_url := resp.url,
      response := resp_content }
  if resp.status_code ∈ success_status m then
    match errors_from_response resp_content with
    | Except.error e => Except.error e
    | Except.ok errs => Except.ok (sent, errs.isEmpty, result)
  else
    Except.ok (sent, false, result)

/-- A resource dict as consumed by `post_or_put` / `post_or_put_all`
(src/client.py docstring lines 80-88): content, resource-type label,
filename, filepath, and the optional per-item endpoint override read with
`rd.get('endpoint', endpoint)`. -/
structure ResourceDict where
  filepath : String
  filename : String
  content : JsonVal
  resource_type : String
  endpoint : Option String

/-- The result mappings of `post_or_put_all`
(`results = defaultdict(dict)` with `results['success']` and
`results['errors']`), each a dict keyed by filepath. -/
structure BatchResults where
  success : List (String × SendResult)
  errors : List (String × SendResult)

/-- Python `k in d` for the result dicts. -/
def hasKey (m : List (String × SendResult)) (k : String) : Bool :=
  m.any (fun p => p.fst == k)

/-- Python `d[k] = v` on a dict: overwrites an existing key in place,
otherwise appends (dicts preserve insertion order). -/
def dictSet (m : List (String × SendResult)) (k : String) (v : SendResult) :
    List (String × SendResult) :=
  if hasKey m k then m.map (fun p => if p.fst == k then (k, v) else p)
  else m ++ [(k, v)]

/-- A batch item together with the transport outcome its one request gets:
`Except.error e` models the `requests` call raising (e.g. a connection
error after retries are exhausted), `Except.ok resp` the server's reply. -/
abbrev BatchItem := ResourceDict × Except PyError HttpResponse

/-- `FhirApiClient.post_or_put` (src/client.py lines 76-124): one
create/replace request for one resource dict (the body sent is
`request_kwargs['json'] = resource`; no per-call auth or headers are
passed).  There is no exception handler here either. -/
def post_or_put (cfg : ClientConfig) (endpoint : String) (_rd : ResourceDict)
    (method : String) (outcome : Except PyError HttpResponse) :
    Except PyError (Bool × SendResult) :=
  match outcome with
  | Except.error e => Except.error e
  | Except.ok resp =>
    match send_request cfg method endpoint ⟨none, []⟩ resp with
    | Except.error e => Except.error e
    | Except.ok (_, success, result) => Except.ok (success, result)

/-- Processing of one batch item inside the `post_or_put_all` loop:
`ep = rd.get('endpoint', endpoint)` then `self.post_or_put(ep, rd, method)`.
(`rd.content` is the request body; the server's reaction to it is the item's
transport outcome.) -/
def itemRun (cfg : ClientConfig) (endpoint method : String) (it : BatchItem) :
    Except PyError (Bool × SendResult) :=
  post_or_put cfg (it.fst.endpoint.getD endpoint) it.fst method it.snd

/-- The `for rd in resource_dicts` loop of `post_or_put_all` (src/client.py
lines 60-74), threading the running `success` boolean
(`success = success_one & success`) and the result dicts.  A raised
exception propagates: the source has no try/except around the loop body. -/
def post_or_put_all_loop (cfg : ClientConfig) (endpoint method : String) :
    List BatchItem → Bool → BatchResults → Except PyError (Bool × BatchResults)
  | [], success, acc => Except.ok (success, acc)
  | it :: rest, success, acc =>
    match itemRun cfg endpoint method it with
    | Except.error e => Except.error e
    | Except.ok (success_one, result) =>
      let acc' : BatchResults :=
        if success_one then
          ⟨dictSet acc.success it.fst.filepath result, acc.errors⟩
        else
          ⟨acc.success, dictSet acc.errors it.fst.filepath result⟩
      post_or_put_all_loop cfg endpoint method rest (success_one && success) acc'

/-- `FhirApiClient.post_or_put_all` (src/client.py lines 31-74); `method`
defaults to `'post'` at the call sites. -/
def post_or_put_all (cfg : ClientConfig) (items : List BatchItem)
    (endpoint method : String) : Except PyError (Bool × BatchResults) :=
  post_or_put_all_loop cfg endpoint method items true ⟨[], []⟩

/-- Python `resp_content.get(k)` where `resp_content` is a parsed-or-raw
response body: only a parsed JSON dict has `.get`. -/
def contentGet (c : RespContent) (k : String) : Except PyError (Option JsonVal) :=
  match c with
  | RespContent.json v => pyDictGet v k
  | RespContent.text _ => Except.error PyError.attributeError

/-- The auth defaulting at the top of `delete_all` (src/client.py lines
145-146): `if not request_kwargs.get('auth'): request_kwargs['auth'] = self.auth`. -/
def delete_all_kwargs (cfg : ClientConfig) (kw : CallKwargs) : CallKwargs :=
  match kw.auth with
  | none => ⟨cfg.auth, kw.headers⟩
  | some a => ⟨some a, kw.headers⟩

/-- Python `x == 'literal'` where `x` is an optional JSON value
(`d.get(k) == 'literal'`: `None` and non-strings compare unequal). -/
def isStrVal (v : Option JsonVal) (s : String) : Bool :=
  match v with
  | some u => pyEqStr u s
  | none => false

/-- The `for entry in resp_content.get('entry', [])` loop of `delete_all`
(src/client.py lines 163-174).  `deletes j` is the transport outcome of the
`j`-th DELETE request issued; the returned list records the URLs of the
DELETE requests actually sent, in order. -/
def delete_loop (cfg : ClientConfig) (auth : Option String)
    (deletes : Nat → Except PyError HttpResponse) :
    List JsonVal → Nat → Bool → Except PyError (Bool × List String)
  | [], _, success => Except.ok (success, [])
  | entry :: rest, i, success =>
    match pySubscript entry "resource" with
    | Except.error e => Except.error e
    | Except.ok resource =>
      match pyDictGet resource "resourceType" with
      | Except.error e => Except.error e
      | Except.ok rt =>
        if isStrVal rt "OperationOutcome" then
          delete_loop cfg auth deletes rest i success
        else
          match pySubscript resource "resourceType" with
          | Except.error e => Except.error e
          | Except.ok rtv =>
            match pySubscript resource "id" with
            | Except.error e => Except.error e
            | Except.ok idv =>
              let url := cfg.base_url ++ "/" ++ pyStr rtv ++ "/" ++ pyStr idv
              match deletes i with
              | Except.error e => Except.error e
              | Except.ok resp =>
                match send_request cfg "delete" url ⟨auth, []⟩ resp with
                | Except.error e => Except.error e
                | Except.ok (_, success_delete, _) =>
                  match delete_loop cfg auth deletes rest (i + 1)
                      (success_delete && success) with
                  | Except.error e => Except.error e
                  | Except.ok (b, urls) => Except.ok (b, url :: urls)

/-- `FhirApiClient.delete_all` (src/client.py lines 126-175).  The fetch's
transport outcome and the successive DELETE outcomes are explicit arguments;
the result pairs the overall boolean with the list of DELETE URLs issued.
The `self.logger.debug(f'Fetched ...')` line evaluates
`resp_content.get("total")` eagerly, before the `if not success` check. -/
def delete_all (cfg : ClientConfig) (endpoint : String) (kw : CallKwargs)
    (fetch : Except PyError HttpResponse)
    (deletes : Nat → Except PyError HttpResponse) :
    Except PyError (Bool × List String) :=
  let kw' := delete_all_kwargs cfg kw
  match fetch with
  | Except.error e => Except.error e
  | Except.ok fresp =>
    match send_request cfg "get" endpoint kw' fresp with
    | Except.error e => Except.error e
    | Except.ok (_, success, result) =>
      match contentGet result.response "total" with
      | Except.error e => Except.error e
      | Except.ok _ =>
        if !success then Except.ok (false, [])
        else
          match contentGet result.response "entry" with
          | Except.error e => Except.error e
          | Except.ok entriesOpt =>
            match pyIter (entriesOpt.getD (JsonVal.arr [])) with
            | Except.error e => Except.error e
            | Except.ok entries => delete_loop cfg kw'.auth deletes entries 0 success

/-- The retry policy handed to `urllib3.Retry` by `requests_retry_session`
(src/utils.py lines 93-126).  The `status` keyword of the Python function is
accepted but never forwarded to `Retry`; `method_whitelist=False` disables
the method-safety filter. -/
structure RetryConfig where
  total : Nat
  read : Nat
  connect : Nat
  backoff_factor : Nat
  status_forcelist : List Nat
  method_filter_disabled : Bool

/-- `requests_retry_session` (src/utils.py lines 93-126) as the retry
configuration it installs; Python defaults are
`total=10, read=10, connect=1, backoff_factor=5,
status_forcelist=(500, 502, 503, 504)`. -/
def requests_retry_session (total read connect backoff_factor : Nat)
    (status_forcelist : List Nat) : RetryConfig :=
  { total := total, read := read, connect := connect
    backoff_factor := backoff_factor, status_forcelist := status_forcelist
    method_filter_disabled := true }

/-- The session configuration used by the status probe:
`requests_retry_session(total=1, connect=1)` with the remaining Python
defaults (src/utils.py lines 136-137). -/
def check_service_status_session : RetryConfig :=
  requests_retry_session 1 10 1 5 [500, 502, 503, 504]

/-- Outcome of the probe's single `session.get(url)` call: either the
`requests.exceptions.ConnectionError` branch or a response. -/
inductive ProbeOutcome where
  | connectionError
  | response (status_code : Nat) (text : String)

/-- `check_service_status` in src/utils.py (lines 129-157): down on a
connection error or a status code of 300 or more; with `exit_on_down` it
calls `exit(1)` (modelled as `Except.error 1`, the process exit code). -/
def check_service_status (outcome : ProbeOutcome) (exit_on_down : Bool) :
    Except Nat Bool :=
  let is_down :=
    match outcome with
    | ProbeOutcome.connectionError => true
    | ProbeOutcome.response s _ => decide (300 ≤ s)
  if exit_on_down && is_down then Except.error 1 else Except.ok is_down

/-- Observable effects of `FhirApiClient.check_service_status`: the messages
passed to `self.logger.error`, and the exit code when the process was
terminated. -/
structure ProbeRun where
  error_logs : List (Option String)
  exit_code : Option Nat

/-- `FhirApiClient.check_service_status` (src/client.py lines 254-265): it
calls the utils probe without `exit_on_down` (so the probe itself never
exits), then on a down verdict logs `log_msg` and, if `exit_on_down` was
requested, exits with code 1. -/
def client_check_service_status (outcome : ProbeOutcome) (exit_on_down : Bool)
    (log_msg : Option String) : ProbeRun :=
  match check_service_status outcome false with
  | Except.error code => ⟨[], some code⟩
  | Except.ok down =>
    if down then
      if exit_on_down then ⟨[log_msg], some 1⟩ else ⟨[log_msg], none⟩
    else ⟨[], none⟩

/-! ## Success classification (claims about `send_request`) -/

/-- The accepted (method, status) pairs exactly as the specification words
them: GET to 200, POST and PUT to 200 or 201, DELETE to 200 or 204, nothing
else.  Compared against the `success_status` table from the source. -/
def acceptedPair (M : String) (s : Nat) : Prop :=
  (M = "GET" ∧ s = 200) ∨
  ((M = "POST" ∨ M = "PUT") ∧ (s = 200 ∨ s = 201)) ∨
  (M = "DELETE" ∧ (s = 200 ∨ s = 204))

lemma mem_success_status (M : String) (s : Nat) :
    s ∈ success_status M ↔ acceptedPair M s := by
  unfold success_status acceptedPair
  split_ifs with h1 h2 h3 h4
  · subst h1
    constructor
    · intro hs
      simp only [List.mem_singleton] at hs
      exact Or.inl ⟨rfl, hs⟩
    · rintro (⟨_, hs⟩ | ⟨hM, _⟩ | ⟨hM, _⟩)
      · simp [hs]
      · rcases hM with hM | hM <;> exact absurd hM (by decide)
      · exact absurd hM (by decide)
  · subst h2
    constructor
    · intro hs
      simp only [List.mem_cons, List.mem_singleton, List.not_mem_nil, or_false] at hs
      exact Or.inr (Or.inl ⟨Or.inl rfl, hs⟩)
    · rintro (⟨hM, _⟩ | ⟨_, hs⟩ | ⟨hM, _⟩)
      · exact absurd hM (by decide)
      · rcases hs with hs | hs <;> simp [hs]
      · exact absurd hM (by decide)
  · subst h3
    constructor
    · intro hs
      simp only [List.mem_cons, List.mem_singleton, List.not_mem_nil, or_false] at hs
      exact Or.inr (Or.inl ⟨Or.inr rfl, hs⟩)
    · rintro (⟨hM, _⟩ | ⟨_, hs⟩ | ⟨hM, _⟩)
      · exact absurd hM (by decide)
      · rcases hs with hs | hs <;> simp [hs]
      · exact absurd hM (by decide)
  · subst h4
    constructor
    · intro hs
      simp only [List.mem_cons, List.mem_singleton, List.not_mem_nil, or_false] at hs
      exact Or.inr (Or.inr ⟨rfl, hs.symm⟩)
    · rintro (⟨hM, _⟩ | ⟨hM, _⟩ | ⟨_, hs⟩)
      · exact absurd hM (by decide)
      · rcases hM with hM | hM <;> exact absurd hM (by decide)
      · rcases hs with hs | hs <;> simp [hs]
  · simp only [List.not_mem_nil, false_iff]
    rintro (⟨hM, _⟩ | ⟨hM, _⟩ | ⟨hM, _⟩)
    · exact h1 hM
    · rcases hM with hM | hM
      · exact h2 hM
      · exact h3 hM
    · exact h4 hM

/-- Helper: whenever `send_request` returns, the request it sent is the one
described by `sent_request_of` (the request goes out before classification,
so this holds for every normal return). -/
lemma send_request_sent_eq (cfg : ClientConfig) (m url : String)
    (kw : CallKwargs) (resp : HttpResponse)
    (out : SentRequest × Bool × SendResult)
    (hout : send_request cfg m url kw resp = Except.ok out) :
    out.fst = sent_request_of cfg m url kw := by
  simp only [send_request] at hout
  by_cases hmem : resp.status_code ∈ success_status (pyUpper m)
  · rw [if_pos hmem] at hout
    cases hscan : errors_from_response (response_content resp) with
    | error e => rw [hscan] at hout; cases hout
    | ok errs => rw [hscan] at hout; cases hout; rfl
  · rw [if_neg hmem] at hout; cases hout; rfl

lemma errorsFilter_total (issues : List JsonVal)
    (hsev : ∀ e ∈ issues, ∃ ef sv, e = JsonVal.obj ef ∧
      lookupAssoc ef "severity" = some sv) :
    ∃ errs, errorsFilter issues = Except.ok errs := by
  induction issues with
  | nil => exact ⟨[], rfl⟩
  | cons e rest ih =>
    obtain ⟨ef, sv, he, hlk⟩ := hsev e (List.mem_cons_self e rest)
    subst he
    obtain ⟨tail, htail⟩ := ih (fun x hx => hsev x (List.mem_cons_of_mem _ hx))
    have hstep : issueSeverityError (JsonVal.obj ef) =
        Except.ok (pyEqStr sv "error") := by
      simp only [issueSeverityError, hlk]
    refine ⟨if pyEqStr sv "error" then JsonVal.obj ef :: tail else tail, ?_⟩
    unfold errorsFilter
    rw [hstep, htail]

lemma errorsFilter_nonempty (issues : List JsonVal)
    (hsev : ∀ e ∈ issues, ∃ ef sv, e = JsonVal.obj ef ∧
      lookupAssoc ef "severity" = some sv)
    (herr : ∃ ef, JsonVal.obj ef ∈ issues ∧
      lookupAssoc ef "severity" = some (JsonVal.str "error")) :
    ∃ err errs, errorsFilter issues = Except.ok (err :: errs) := by
  induction issues with
  | nil =>
    obtain ⟨ef, hm, _⟩ := herr
    exact absurd hm (List.not_mem_nil _)
  | cons e rest ih =>
    obtain ⟨ef, sv, he, hlk⟩ := hsev e (List.mem_cons_self e rest)
    subst he
    have hsevtail : ∀ x ∈ rest, ∃ ef' sv', x = JsonVal.obj ef' ∧
        lookupAssoc ef' "severity" = some sv' :=
      fun x hx => hsev x (List.mem_cons_of_mem _ hx)
    have hstep : issueSeverityError (JsonVal.obj ef) =
        Except.ok (pyEqStr sv "error") := by
      simp only [issueSeverityError, hlk]
    obtain ⟨ef', hm, hlk'⟩ := herr
    rcases List.mem_cons.mp hm with heq | hmem
    · injection heq with hfe
      rw [hfe, hlk] at hlk'
      injection hlk' with hsv
      obtain ⟨tail, htail⟩ := errorsFilter_total rest hsevtail
      refine ⟨JsonVal.obj ef, tail, ?_⟩
      unfold errorsFilter
      rw [hstep, htail, hsv]
      simp [pyEqStr]
    · obtain ⟨err, errs, htail⟩ := ih hsevtail ⟨ef', hmem, hlk'⟩
      unfold errorsFilter
      rw [hstep, htail]
      cases hb : pyEqStr sv "error"
      · exact ⟨err, errs, by simp⟩
      · exact ⟨JsonVal.obj ef, err :: errs, by simp⟩

/-- C1: the dual-layer classification of `send_request`.  First conjunct:
when the response body scans to no error issues, the call returns normally,
classifying success exactly when the status code lies in the accepted set of
the (case-normalised) method — GET 200; POST/PUT 200 or 201; DELETE 200 or
204; every other method always fails.  Second conjunct: for an accepted
(method, status) pair, if the parsed body carries at least one issue entry
whose severity equals `"error"` (the remaining entries being dicts with a
severity field, so the scan completes), the classification is failure
despite the accepted status code. -/
theorem send_request_classification (cfg : ClientConfig) (m url : String)
    (kw : CallKwargs) (resp : HttpResponse) :
    (errors_from_response (response_content resp) = Except.ok [] →
      ∃ b, send_request cfg m url kw resp =
          Except.ok (sent_request_of cfg m url kw, b,
            ⟨resp.status_code, resp.url, response_content resp⟩) ∧
        (b = true ↔ acceptedPair (pyUpper m) resp.status_code)) ∧
    (∀ fields issues,
      resp.jsonParsed = some (JsonVal.obj fields) →
      lookupAssoc fields "issue" = some (JsonVal.arr issues) →
      (∀ e ∈ issues, ∃ ef sv, e = JsonVal.obj ef ∧
        lookupAssoc ef "severity" = some sv) →
      (∃ ef, JsonVal.obj ef ∈ issues ∧
        lookupAssoc ef "severity" = some (JsonVal.str "error")) →
      resp.status_code ∈ success_status (pyUpper m) →
      send_request cfg m url kw resp =
        Except.ok (sent_request_of cfg m url kw, false,
          ⟨resp.status_code, resp.url, response_content resp⟩)) := by
  constructor
  · intro hclean
    by_cases hmem : resp.status_code ∈ success_status (pyUpper m)
    · refine ⟨true, ?_, ?_⟩
      · simp only [send_request]
        rw [if_pos hmem, hclean]
        rfl
      · exact ⟨fun _ => (mem_success_status _ _).mp hmem, fun _ => rfl⟩
    · refine ⟨false, ?_, ?_⟩
      · simp only [send_request]
        rw [if_neg hmem]
      · constructor
        · intro h; cases h
        · intro hacc; exact absurd ((mem_success_status _ _).mpr hacc) hmem
  · intro fields issues hjson hissue hsev herr hmem
    have hc : response_content resp = RespContent.json (JsonVal.obj fields) := by
      unfold response_content; rw [hjson]
    have hfields : fields.isEmpty = false := by
      cases fields with
      | nil => simp [lookupAssoc] at hissue
      | cons p rest => rfl
    obtain ⟨err, errs, hfil⟩ := errorsFilter_nonempty issues hsev herr
    have hscan : errors_from_response (response_content resp) =
        Except.ok (err :: errs) := by
      rw [hc]
      unfold errors_from_response
      have hfal : (RespContent.json (JsonVal.obj fields)).isFalsy = false := by
        simp [RespContent.isFalsy, JsonVal.isFalsy, hfields]
      simp only [hfal, Bool.false_eq_true, if_neg, ite_false]
      rw [hissue]
      simp only [Option.getD_some]
      have hiter : pyIter (JsonVal.arr issues) = Except.ok issues := rfl
      rw [hiter]
      exact hfil
    simp only [send_request]
    rw [if_pos hmem, hscan]
    rfl

/-- C1 witness: Scenario A — a POST answered 201 with an empty-object body
is classified successful; Scenario B — a POST answered 200 whose body's
issue list carries a severity-error entry is classified failed despite the
accepted status code. -/
theorem send_request_classification_witness :
    (∃ b, send_request ⟨"b", none, none⟩ "post" "u" ⟨none, []⟩
        ⟨201, "", some (JsonVal.obj []), "ru"⟩ =
        Except.ok (sent_request_of ⟨"b", none, none⟩ "post" "u" ⟨none, []⟩, b,
          ⟨201, "ru",
            response_content ⟨201, "", some (JsonVal.obj []), "ru"⟩⟩) ∧
      (b = true ↔ acceptedPair (pyUpper "post") 201)) ∧
    send_request ⟨"b", none, none⟩ "post" "u" ⟨none, []⟩
      ⟨200, "",
        some (JsonVal.obj [("issue", JsonVal.arr
          [JsonVal.obj [("severity", JsonVal.str "error")]])]), "ru"⟩ =
      Except.ok (sent_request_of ⟨"b", none, none⟩ "post" "u" ⟨none, []⟩, false,
        ⟨200, "ru",
          response_content ⟨200, "",
            some (JsonVal.obj [("issue", JsonVal.arr
              [JsonVal.obj [("severity", JsonVal.str "error")]])]), "ru"⟩⟩) :=
  ⟨(send_request_classification ⟨"b", none, none⟩ "post" "u" ⟨none, []⟩
      ⟨201, "", some (JsonVal.obj []), "ru"⟩).1 rfl,
   (send_request_classification ⟨"b", none, none⟩ "post" "u" ⟨none, []⟩
      ⟨200, "",
        some (JsonVal.obj [("issue", JsonVal.arr
          [JsonVal.obj [("severity", JsonVal.str "error")]])]), "ru"⟩).2
     [("issue", JsonVal.arr [JsonVal.obj [("severity", JsonVal.str "error")]])]
     [JsonVal.obj [("severity", JsonVal.str "error")]]
     rfl rfl
     (by
       intro e he
       simp only [List.mem_singleton] at he
       subst he
       exact ⟨_, _, rfl, rfl⟩)
     ⟨[("severity", JsonVal.str "error")], by simp, rfl⟩
     (by decide)⟩

/-- C2 (amended): when the body fails JSON parsing the result carries the
raw text, and classification by status code alone happens only when the
status is not accepted or the raw text is empty; with an accepted status and
a non-empty raw text, the issue scan is still attempted on the text and
raises `AttributeError` instead of returning. -/
theorem send_request_raw_body (cfg : ClientConfig) (m url : String)
    (kw : CallKwargs) (resp : HttpResponse) (h : resp.jsonParsed = none) :
    (resp.status_code ∉ success_status (pyUpper m) →
      send_request cfg m url kw resp =
        Except.ok (sent_request_of cfg m url kw, false,
          ⟨resp.status_code, resp.url, RespContent.text resp.text⟩)) ∧
    (resp.status_code ∈ success_status (pyUpper m) → resp.text = "" →
      send_request cfg m url kw resp =
        Except.ok (sent_request_of cfg m url kw, true,
          ⟨resp.status_code, resp.url, RespContent.text resp.text⟩)) ∧
    (resp.status_code ∈ success_status (pyUpper m) → resp.text ≠ "" →
      send_request cfg m url kw resp = Except.error PyError.attributeError) := by
  have hc : response_content resp = RespContent.text resp.text := by
    unfold response_content; rw [h]
  refine ⟨fun hmem => ?_, fun hmem htext => ?_, fun hmem htext => ?_⟩
  · simp only [send_request]
    rw [if_neg hmem, hc]
  · have hscan : errors_from_response (response_content resp) = Except.ok [] := by
      rw [hc, htext]; rfl
    simp only [send_request]
    rw [if_pos hmem, hscan, hc, htext]
    rfl
  · have hscan : errors_from_response (response_content resp) =
        Except.error PyError.attributeError := by
      rw [hc]
      unfold errors_from_response
      have hfal : (RespContent.text resp.text).isFalsy = false := by
        simp [RespContent.isFalsy, htext]
      simp [hfal]
    simp only [send_request]
    rw [if_pos hmem, hscan]

/-- C2 counterexample: a GET answered 200 with the non-JSON body `"OK"`
makes `send_request` raise `AttributeError` (the issue scan calls `.get` on
the raw string), refuting the claim that it always returns without raising
and never scans a raw-text body. -/
theorem send_request_raw_body_cex :
    send_request ⟨"b", none, none⟩ "get" "u" ⟨none, []⟩ ⟨200, "OK", none, "ru"⟩
      = Except.error PyError.attributeError := rfl

/-- C2 witness: a GET answered 404 with a non-JSON body returns normally,
classified failed by the status check alone, with the raw text in the
result. -/
theorem send_request_raw_body_witness :
    send_request ⟨"b", none, none⟩ "get" "u" ⟨none, []⟩
      ⟨404, "Not Found", none, "ru"⟩ =
      Except.ok (sent_request_of ⟨"b", none, none⟩ "get" "u" ⟨none, []⟩, false,
        ⟨404, "ru", RespContent.text "Not Found"⟩) :=
  (send_request_raw_body ⟨"b", none, none⟩ "get" "u" ⟨none, []⟩
    ⟨404, "Not Found", none, "ru"⟩ rfl).1 (by decide)

/-- C5 (amended): whenever a client-level credential is configured, the
request is sent with the client-level credential, even when a per-call
credential is supplied; the per-call credential is used only when no
client-level credential is configured. -/
theorem send_request_auth_policy (cfg : ClientConfig) (m url : String)
    (kw : CallKwargs) :
    (∀ a, cfg.auth = some a → (sent_request_of cfg m url kw).auth = some a) ∧
    (cfg.auth = none → (sent_request_of cfg m url kw).auth = kw.auth) ∧
    (∀ resp out, send_request cfg m url kw resp = Except.ok out →
      out.fst = sent_request_of cfg m url kw) := by
  refine ⟨fun a ha => ?_, fun ha => ?_, fun resp out hout =>
    send_request_sent_eq cfg m url kw resp out hout⟩
  · simp [sent_request_of, ha]
  · simp [sent_request_of, ha]

/-- C5 counterexample: with client credential `"clientauth"` configured and
per-call credential `"percall"` supplied, the request goes out with the
client credential, not the per-call one — refuting the claim that the
per-call credential wins. -/
theorem send_request_auth_cex :
    send_request ⟨"b", some "clientauth", none⟩ "post" "u" ⟨some "percall", []⟩
      ⟨200, "", some (JsonVal.obj []), "ru"⟩
    = Except.ok (⟨"post", "u", some "clientauth", []⟩, true,
        ⟨200, "ru", RespContent.json (JsonVal.obj [])⟩) := rfl

/-- C5 witness: the amended policy applied at a concrete configuration. -/
theorem send_request_auth_policy_witness :
    (sent_request_of ⟨"b", some "clientauth", none⟩ "post" "u"
      ⟨some "percall", []⟩).auth = some "clientauth" :=
  (send_request_auth_policy ⟨"b", some "clientauth", none⟩ "post" "u"
    ⟨some "percall", []⟩).1 "clientauth" rfl

/-- C8: when the supplied headers carry no Content-Type and a FHIR version
string is configured, the request is sent with a Content-Type of
`application/fhir+json; fhirVersion=<major>.0` where `<major>` is the first
dot-separated field of the version string; a caller-supplied Content-Type is
never overwritten. -/
theorem send_request_content_type (cfg : ClientConfig) (m url : String)
    (kw : CallKwargs) (v maj : String) (rest : List String)
    (hv : cfg.fhir_version = some v) (hne : v ≠ "")
    (hsplit : splitOnDot v = maj :: rest) :
    ((kw.headers.any fun p => p.fst == "Content-Type") = false →
      (sent_request_of cfg m url kw).headers =
        kw.headers ++
          [("Content-Type", "application/fhir+json; fhirVersion=" ++ maj ++ ".0")]) ∧
    ((kw.headers.any fun p => p.fst == "Content-Type") = true →
      (sent_request_of cfg m url kw).headers = kw.headers) ∧
    (∀ resp out, send_request cfg m url kw resp = Except.ok out →
      out.fst = sent_request_of cfg m url kw) := by
  have hdr : fhir_version_headers cfg.fhir_version =
      [("Content-Type", "application/fhir+json; fhirVersion=" ++ maj ++ ".0")] := by
    rw [hv]
    simp only [fhir_version_headers]
    rw [if_neg hne, hsplit]
    rfl
  refine ⟨fun hno => ?_, fun hyes => ?_, fun resp out hout =>
    send_request_sent_eq cfg m url kw resp out hout⟩
  · simp [sent_request_of, hno, hdr]
  · simp [sent_request_of, hyes]

/-- C8 witness: with version `"4.0.0"` and no caller headers, the injected
Content-Type is `application/fhir+json; fhirVersion=4.0`. -/
theorem send_request_content_type_witness :
    (sent_request_of ⟨"b", none, some "4.0.0"⟩ "post" "u" ⟨none, []⟩).headers =
      [] ++ [("Content-Type", "application/fhir+json; fhirVersion=" ++ "4" ++ ".0")] :=
  (send_request_content_type ⟨"b", none, some "4.0.0"⟩ "post" "u" ⟨none, []⟩
    "4.0.0" "4" ["0", "0"] rfl (by decide) rfl).1 rfl

lemma errorsFilter_keyError (issues : List JsonVal)
    (hobjs : ∀ e ∈ issues, ∃ efields, e = JsonVal.obj efields)
    (hmiss : ∃ efields, JsonVal.obj efields ∈ issues ∧
      lookupAssoc efields "severity" = none) :
    errorsFilter issues = Except.error PyError.keyError := by
  induction issues with
  | nil =>
    obtain ⟨efields, hm, _⟩ := hmiss
    exact absurd hm (List.not_mem_nil _)
  | cons e rest ih =>
    obtain ⟨efields, he⟩ := hobjs e (List.mem_cons_self e rest)
    subst he
    cases hsev : lookupAssoc efields "severity" with
    | none =>
      have hstep : issueSeverityError (JsonVal.obj efields) =
          Except.error PyError.keyError := by
        simp only [issueSeverityError, hsev]
      unfold errorsFilter
      rw [hstep]
    | some v =>
      have hstep : issueSeverityError (JsonVal.obj efields) =
          Except.ok (pyEqStr v "error") := by
        simp only [issueSeverityError, hsev]
      obtain ⟨fields, hm, hnone⟩ := hmiss
      rcases List.mem_cons.mp hm with heq | hmem
      · injection heq with hf
        subst hf
        rw [hsev] at hnone
        cases hnone
      · have hr := ih (fun x hx => hobjs x (List.mem_cons_of_mem _ hx))
          ⟨fields, hmem, hnone⟩
        unfold errorsFilter
        rw [hstep, hr]

/-- C10: with an accepted status code and a parsed JSON body whose `issue`
list contains a dict entry lacking a `severity` key, `send_request` raises
`KeyError` instead of returning a classified result — classification is
total only when every issue entry carries a severity field. -/
theorem send_request_missing_severity (cfg : ClientConfig) (m url : String)
    (kw : CallKwargs) (resp : HttpResponse) (fields : List (String × JsonVal))
    (issues : List JsonVal)
    (hstatus : resp.status_code ∈ success_status (pyUpper m))
    (hjson : resp.jsonParsed = some (JsonVal.obj fields))
    (hissue : lookupAssoc fields "issue" = some (JsonVal.arr issues))
    (hobjs : ∀ e ∈ issues, ∃ efields, e = JsonVal.obj efields)
    (hmiss : ∃ efields, JsonVal.obj efields ∈ issues ∧
      lookupAssoc efields "severity" = none) :
    send_request cfg m url kw resp = Except.error PyError.keyError := by
  have hc : response_content resp = RespContent.json (JsonVal.obj fields) := by
    unfold response_content; rw [hjson]
  have hfields : fields.isEmpty = false := by
    cases fields with
    | nil => simp [lookupAssoc] at hissue
    | cons p rest => rfl
  have hscan : errors_from_response (response_content resp) =
      Except.error PyError.keyError := by
    rw [hc]
    unfold errors_from_response
    have hfal : (RespContent.json (JsonVal.obj fields)).isFalsy = false := by
      simp [RespContent.isFalsy, JsonVal.isFalsy, hfields]
    simp only [hfal, Bool.false_eq_true, if_neg, ite_false]
    rw [hissue]
    simp only [Option.getD_some]
    have hiter : pyIter (JsonVal.arr issues) = Except.ok issues := rfl
    rw [hiter]
    exact errorsFilter_keyError issues hobjs hmiss
  simp only [send_request]
  rw [if_pos hstatus, hscan]

/-- C10 witness: a GET answered 200 whose body's single issue entry has no
severity key makes `send_request` raise `KeyError`. -/
theorem send_request_missing_severity_witness :
    send_request ⟨"b", none, none⟩ "get" "u" ⟨none, []⟩
      ⟨200, "",
        some (JsonVal.obj
          [("issue", JsonVal.arr [JsonVal.obj [("code", JsonVal.str "x")]])]),
        "ru"⟩ = Except.error PyError.keyError :=
  send_request_missing_severity ⟨"b", none, none⟩ "get" "u" ⟨none, []⟩
    ⟨200, "",
      some (JsonVal.obj
        [("issue", JsonVal.arr [JsonVal.obj [("code", JsonVal.str "x")]])]),
      "ru"⟩
    [("issue", JsonVal.arr [JsonVal.obj [("code", JsonVal.str "x")]])]
    [JsonVal.obj [("code", JsonVal.str "x")]]
    (by decide) rfl rfl
    (by
      intro e he
      simp only [List.mem_singleton] at he
      subst he
      exact ⟨_, rfl⟩)
    ⟨[("code", JsonVal.str "x")], by simp, rfl⟩

/-! ## Batch write (claims about `post_or_put_all`) -/

/-- The (filepath, result) pairs of the items the loop classifies as
successes, in input order. -/
def succPairs (cfg : ClientConfig) (ep m : String) :
    List BatchItem → List (String × SendResult)
  | [] => []
  | it :: rest =>
    match itemRun cfg ep m it with
    | Except.ok (true, r) => (it.fst.filepath, r) :: succPairs cfg ep m rest
    | _ => succPairs cfg ep m rest

/-- The (filepath, result) pairs of the items the loop classifies as
failures, in input order. -/
def errPairs (cfg : ClientConfig) (ep m : String) :
    List BatchItem → List (String × SendResult)
  | [] => []
  | it :: rest =>
    match itemRun cfg ep m it with
    | Except.ok (false, r) => (it.fst.filepath, r) :: errPairs cfg ep m rest
    | _ => errPairs cfg ep m rest

/-- Whether every item of the batch is classified successful. -/
def allSucc (cfg : ClientConfig) (ep m : String) : List BatchItem → Bool
  | [] => true
  | it :: rest =>
    (match itemRun cfg ep m it with
     | Except.ok (true, _) => true
     | _ => false) && allSucc cfg ep m rest

lemma hasKey_append (a b : List (String × SendResult)) (k : String) :
    hasKey (a ++ b) k = (hasKey a k || hasKey b k) := by
  simp [hasKey, List.any_append]

lemma dictSet_fresh (m : List (String × SendResult)) (k : String) (v : SendResult)
    (h : hasKey m k = false) : dictSet m k v = m ++ [(k, v)] := by
  simp [dictSet, h]

lemma post_or_put_all_loop_eq (cfg : ClientConfig) (ep m : String)
    (items : List BatchItem) :
    ∀ (s : Bool) (acc : BatchResults),
      (∀ it ∈ items, ∃ pr, itemRun cfg ep m it = Except.ok pr) →
      (∀ it ∈ items, hasKey acc.success it.fst.filepath = false ∧
        hasKey acc.errors it.fst.filepath = false) →
      ((items.map fun it => it.fst.filepath).Nodup) →
      post_or_put_all_loop cfg ep m items s acc =
        Except.ok (s && allSucc cfg ep m items,
          ⟨acc.success ++ succPairs cfg ep m items,
           acc.errors ++ errPairs cfg ep m items⟩) := by
  induction items with
  | nil =>
    intro s acc _ _ _
    simp [post_or_put_all_loop, allSucc, succPairs, errPairs]
  | cons it rest ih =>
    intro s acc hok hfresh hnodup
    obtain ⟨⟨b, r⟩, hrun⟩ := hok it (List.mem_cons_self it rest)
    have hoktail : ∀ x ∈ rest, ∃ pr, itemRun cfg ep m x = Except.ok pr :=
      fun x hx => hok x (List.mem_cons_of_mem _ hx)
    have hfp_notin : it.fst.filepath ∉ rest.map (fun x => x.fst.filepath) :=
      (List.nodup_cons.mp hnodup).1
    have hnoduptail : (rest.map fun x => x.fst.filepath).Nodup :=
      (List.nodup_cons.mp hnodup).2
    have hsingle : ∀ x ∈ rest,
        hasKey [(it.fst.filepath, r)] x.fst.filepath = false := by
      intro x hx
      have hne : it.fst.filepath ≠ x.fst.filepath := by
        intro hcontra
        exact hfp_notin (hcontra ▸ List.mem_map.mpr ⟨x, hx, rfl⟩)
      simp [hasKey, hne]
    cases b
    · have hfreshtail : ∀ x ∈ rest,
          hasKey (acc.errors ++ [(it.fst.filepath, r)]) x.fst.filepath = false ∧
          hasKey acc.success x.fst.filepath = false := by
        intro x hx
        refine ⟨?_, (hfresh x (List.mem_cons_of_mem _ hx)).1⟩
        simp [hasKey_append, (hfresh x (List.mem_cons_of_mem _ hx)).2, hsingle x hx]
      have hstep := ih (false && s)
        ⟨acc.success, acc.errors ++ [(it.fst.filepath, r)]⟩
        hoktail (fun x hx => ⟨(hfreshtail x hx).2, (hfreshtail x hx).1⟩) hnoduptail
      simp only [post_or_put_all_loop, hrun]
      rw [dictSet_fresh _ _ _ (hfresh it (List.mem_cons_self it rest)).2]
      refine Eq.trans hstep ?_
      simp [allSucc, succPairs, errPairs, hrun, List.append_assoc]
    · have hfreshtail : ∀ x ∈ rest,
          hasKey (acc.success ++ [(it.fst.filepath, r)]) x.fst.filepath = false ∧
          hasKey acc.errors x.fst.filepath = false := by
        intro x hx
        refine ⟨?_, (hfresh x (List.mem_cons_of_mem _ hx)).2⟩
        simp [hasKey_append, (hfresh x (List.mem_cons_of_mem _ hx)).1, hsingle x hx]
      have hstep := ih (true && s)
        ⟨acc.success ++ [(it.fst.filepath, r)], acc.errors⟩
        hoktail (fun x hx => hfreshtail x hx) hnoduptail
      simp only [post_or_put_all_loop, hrun]
      rw [dictSet_fresh _ _ _ (hfresh it (List.mem_cons_self it rest)).1]
      refine Eq.trans hstep ?_
      simp [allSucc, succPairs, errPairs, hrun, List.append_assoc]

lemma pairs_length (cfg : ClientConfig) (ep m : String) (items : List BatchItem)
    (hok : ∀ it ∈ items, ∃ pr, itemRun cfg ep m it = Except.ok pr) :
    (succPairs cfg ep m items).length + (errPairs cfg ep m items).length =
      items.length := by
  induction items with
  | nil => rfl
  | cons it rest ih =>
    obtain ⟨⟨b, r⟩, hrun⟩ := hok it (List.mem_cons_self it rest)
    have ih' := ih (fun x hx => hok x (List.mem_cons_of_mem _ hx))
    cases b
    · simp only [succPairs, errPairs, hrun, List.length_cons]
      omega
    · simp only [succPairs, errPairs, hrun, List.length_cons]
      omega

lemma allSucc_iff_no_errors (cfg : ClientConfig) (ep m : String)
    (items : List BatchItem)
    (hok : ∀ it ∈ items, ∃ pr, itemRun cfg ep m it = Except.ok pr) :
    allSucc cfg ep m items = true ↔ (errPairs cfg ep m items).length = 0 := by
  induction items with
  | nil => simp [allSucc, errPairs]
  | cons it rest ih =>
    obtain ⟨⟨b, r⟩, hrun⟩ := hok it (List.mem_cons_self it rest)
    have ih' := ih (fun x hx => hok x (List.mem_cons_of_mem _ hx))
    cases b
    · simp [allSucc, errPairs, hrun]
    · simp [allSucc, errPairs, hrun, ih']

lemma hasKey_succPairs_not_mem (cfg : ClientConfig) (ep m : String)
    (items : List BatchItem) (k : String)
    (hk : k ∉ items.map (fun it => it.fst.filepath)) :
    hasKey (succPairs cfg ep m items) k = false := by
  induction items with
  | nil => rfl
  | cons it rest ih =>
    have hk' : k ∉ rest.map (fun x => x.fst.filepath) := by
      intro h; exact hk (List.mem_cons_of_mem _ h)
    have hne : (it.fst.filepath == k) = false := by
      apply beq_eq_false_iff_ne.mpr
      intro h
      exact hk (h ▸ List.mem_cons_self _ _)
    cases hrun : itemRun cfg ep m it with
    | error e => simp only [succPairs, hrun]; exact ih hk'
    | ok pr =>
      obtain ⟨b, r⟩ := pr
      cases b
      · simp only [succPairs, hrun]; exact ih hk'
      · simp only [succPairs, hrun]
        simp [hasKey, hne]
        simpa [hasKey] using ih hk'

lemma hasKey_errPairs_not_mem (cfg : ClientConfig) (ep m : String)
    (items : List BatchItem) (k : String)
    (hk : k ∉ items.map (fun it => it.fst.filepath)) :
    hasKey (errPairs cfg ep m items) k = false := by
  induction items with
  | nil => rfl
  | cons it rest ih =>
    have hk' : k ∉ rest.map (fun x => x.fst.filepath) := by
      intro h; exact hk (List.mem_cons_of_mem _ h)
    have hne : (it.fst.filepath == k) = false := by
      apply beq_eq_false_iff_ne.mpr
      intro h
      exact hk (h ▸ List.mem_cons_self _ _)
    cases hrun : itemRun cfg ep m it with
    | error e => simp only [errPairs, hrun]; exact ih hk'
    | ok pr =>
      obtain ⟨b, r⟩ := pr
      cases b
      · simp only [errPairs, hrun]
        simp [hasKey, hne]
        simpa [hasKey] using ih hk'
      · simp only [errPairs, hrun]; exact ih hk'

lemma pairs_exclusive (cfg : ClientConfig) (ep m : String)
    (items : List BatchItem)
    (hok : ∀ it ∈ items, ∃ pr, itemRun cfg ep m it = Except.ok pr)
    (hnodup : (items.map fun it => it.fst.filepath).Nodup) :
    ∀ it ∈ items,
      hasKey (succPairs cfg ep m items) it.fst.filepath ≠
        hasKey (errPairs cfg ep m items) it.fst.filepath := by
  induction items with
  | nil => intro it h; exact absurd h (List.not_mem_nil _)
  | cons hd rest ih =>
    intro it hmem
    obtain ⟨⟨b, r⟩, hrun⟩ := hok hd (List.mem_cons_self hd rest)
    have hoktail : ∀ x ∈ rest, ∃ pr, itemRun cfg ep m x = Except.ok pr :=
      fun x hx => hok x (List.mem_cons_of_mem _ hx)
    have hfp_notin : hd.fst.filepath ∉ rest.map (fun x => x.fst.filepath) :=
      (List.nodup_cons.mp hnodup).1
    have hnoduptail : (rest.map fun x => x.fst.filepath).Nodup :=
      (List.nodup_cons.mp hnodup).2
    rcases List.mem_cons.mp hmem with heq | hmemr
    · subst heq
      cases b
      · simp only [succPairs, errPairs, hrun]
        rw [hasKey_succPairs_not_mem cfg ep m rest _ hfp_notin]
        simp [hasKey]
      · simp only [succPairs, errPairs, hrun]
        rw [hasKey_errPairs_not_mem cfg ep m rest _ hfp_notin]
        simp [hasKey]
    · have hne : (hd.fst.filepath == it.fst.filepath) = false := by
        apply beq_eq_false_iff_ne.mpr
        intro h
        exact hfp_notin (h ▸ List.mem_map.mpr ⟨it, hmemr, rfl⟩)
      have ihr := ih hoktail hnoduptail it hmemr
      cases b
      · simp only [succPairs, errPairs, hrun]
        simpa [hasKey, hne] using ihr
      · simp only [succPairs, errPairs, hrun]
        simpa [hasKey, hne] using ihr

/-- C3 (amended): for a bulk write whose filepath keys are pairwise distinct
and in which every item's request completes without a raised exception,
every input item's key lands in exactly one of the two mappings,
`len(successes) + len(failures)` equals the number of items, and the overall
boolean is true exactly when the failures mapping is empty. -/
theorem post_or_put_all_invariant (cfg : ClientConfig) (items : List BatchItem)
    (ep m : String)
    (hok : ∀ it ∈ items, ∃ pr, itemRun cfg ep m it = Except.ok pr)
    (hnodup : (items.map fun it => it.fst.filepath).Nodup) :
    ∃ b res, post_or_put_all cfg items ep m = Except.ok (b, res) ∧
      res.success.length + res.errors.length = items.length ∧
      (b = true ↔ res.errors.length = 0) ∧
      ∀ it ∈ items,
        hasKey res.success it.fst.filepath ≠ hasKey res.errors it.fst.filepath := by
  have hloop := post_or_put_all_loop_eq cfg ep m items true ⟨[], []⟩ hok
    (fun it _ => ⟨rfl, rfl⟩) hnodup
  refine ⟨allSucc cfg ep m items,
    ⟨succPairs cfg ep m items, errPairs cfg ep m items⟩, ?_, ?_, ?_, ?_⟩
  · unfold post_or_put_all
    rw [hloop]
    simp
  · exact pairs_length cfg ep m items hok
  · exact allSucc_iff_no_errors cfg ep m items hok
  · exact pairs_exclusive cfg ep m items hok hnodup

/-- C3 counterexample: two items sharing the filepath key `"a"`, both
succeeding (POST answered 201), produce a successes mapping with a single
entry: `len(successes) + len(failures) = 1 ≠ 2`, refuting the claim for
batches with duplicate keys. -/
theorem post_or_put_all_dup_cex :
    (post_or_put_all ⟨"bu", none, none⟩
      [(⟨"a", "f1", JsonVal.obj [], "Patient", none⟩,
        Except.ok ⟨201, "", some (JsonVal.obj []), "u"⟩),
       (⟨"a", "f2", JsonVal.obj [], "Patient", none⟩,
        Except.ok ⟨201, "", some (JsonVal.obj []), "u"⟩)]
      "ep" "post").map (fun p => p.snd.success.length + p.snd.errors.length)
    = Except.ok 1 := rfl

/-- C3 witness: a two-item batch with distinct keys, one success and one
failure (Scenario E shape): the invariant holds. -/
theorem post_or_put_all_invariant_witness :
    ∃ b res, post_or_put_all ⟨"bu", none, none⟩
        [(⟨"a", "f1", JsonVal.obj [], "Patient", none⟩,
          Except.ok ⟨201, "", some (JsonVal.obj []), "u"⟩),
         (⟨"c", "f2", JsonVal.obj [], "Patient", none⟩,
          Except.ok ⟨400, "", some (JsonVal.obj []), "u"⟩)]
        "ep" "post" = Except.ok (b, res) ∧
      res.success.length + res.errors.length = 2 ∧
      (b = true ↔ res.errors.length = 0) ∧
      ∀ it ∈ ([(⟨"a", "f1", JsonVal.obj [], "Patient", none⟩,
          Except.ok ⟨201, "", some (JsonVal.obj []), "u"⟩),
         (⟨"c", "f2", JsonVal.obj [], "Patient", none⟩,
          Except.ok ⟨400, "", some (JsonVal.obj []), "u"⟩)] : List BatchItem),
        hasKey res.success it.fst.filepath ≠ hasKey res.errors it.fst.filepath :=
  post_or_put_all_invariant ⟨"bu", none, none⟩
    [(⟨"a", "f1", JsonVal.obj [], "Patient", none⟩,
      Except.ok ⟨201, "", some (JsonVal.obj []), "u"⟩),
     (⟨"c", "f2", JsonVal.obj [], "Patient", none⟩,
      Except.ok ⟨400, "", some (JsonVal.obj []), "u"⟩)]
    "ep" "post"
    (by
      intro it h
      rcases List.mem_cons.mp h with heq | h
      · subst heq; exact ⟨_, rfl⟩
      · rcases List.mem_cons.mp h with heq | h
        · subst heq; exact ⟨_, rfl⟩
        · exact absurd h (List.not_mem_nil _))
    (by decide)

lemma post_or_put_all_loop_error (cfg : ClientConfig) (ep m : String)
    (pre : List BatchItem) :
    ∀ (bad : BatchItem) (rest : List BatchItem) (e : PyError) (s : Bool)
      (acc : BatchResults),
      (∀ it ∈ pre, ∃ pr, itemRun cfg ep m it = Except.ok pr) →
      itemRun cfg ep m bad = Except.error e →
      post_or_put_all_loop cfg ep m (pre ++ bad :: rest) s acc =
        Except.error e := by
  induction pre with
  | nil =>
    intro bad rest e s acc _ hbad
    simp [post_or_put_all_loop, hbad]
  | cons it pre' ih =>
    intro bad rest e s acc hok hbad
    obtain ⟨⟨b, r⟩, hrun⟩ := hok it (List.mem_cons_self it pre')
    simp only [List.cons_append, post_or_put_all_loop, hrun]
    exact ih bad rest e _ _ (fun x hx => hok x (List.mem_cons_of_mem _ hx)) hbad

/-- C4 (amended): a hard error raised while processing one item is not
caught: it propagates out of `post_or_put_all`, aborting the batch, so the
remaining items are never processed and nothing is recorded for them.  Only
classified failures (normal returns) are recorded and allow the batch to
continue. -/
theorem post_or_put_all_error_propagates (cfg : ClientConfig) (ep m : String)
    (pre : List BatchItem) (bad : BatchItem) (rest : List BatchItem)
    (e : PyError)
    (hpre : ∀ it ∈ pre, ∃ pr, itemRun cfg ep m it = Except.ok pr)
    (hbad : itemRun cfg ep m bad = Except.error e) :
    post_or_put_all cfg (pre ++ bad :: rest) ep m = Except.error e :=
  post_or_put_all_loop_error cfg ep m pre bad rest e true ⟨[], []⟩ hpre hbad

/-- C4 counterexample: a three-item batch whose second item's request raises
a connection error makes `post_or_put_all` itself raise — no result mapping
is produced, the error is not recorded as a failure, and the third item is
never processed, refuting the per-item isolation claim. -/
theorem post_or_put_all_abort_cex :
    post_or_put_all ⟨"bu", none, none⟩
      [(⟨"a", "f1", JsonVal.obj [], "Patient", none⟩,
        Except.ok ⟨201, "", some (JsonVal.obj []), "u"⟩),
       (⟨"c", "f2", JsonVal.obj [], "Patient", none⟩,
        Except.error PyError.connectionError),
       (⟨"d", "f3", JsonVal.obj [], "Patient", none⟩,
        Except.ok ⟨201, "", some (JsonVal.obj []), "u"⟩)]
      "ep" "post" = Except.error PyError.connectionError := rfl

/-- C4 witness: the propagation theorem applied to a concrete batch whose
second item raises. -/
theorem post_or_put_all_error_propagates_witness :
    post_or_put_all ⟨"bu", none, none⟩
      ([(⟨"a", "f1", JsonVal.obj [], "Patient", none⟩,
          Except.ok ⟨201, "", some (JsonVal.obj []), "u"⟩)] ++
        (⟨"c", "f2", JsonVal.obj [], "Patient", none⟩,
          Except.error PyError.connectionError) ::
        [(⟨"d", "f3", JsonVal.obj [], "Patient", none⟩,
          Except.ok ⟨201, "", some (JsonVal.obj []), "u"⟩)])
      "ep" "post" = Except.error PyError.connectionError :=
  post_or_put_all_error_propagates ⟨"bu", none, none⟩ "ep" "post"
    [(⟨"a", "f1", JsonVal.obj [], "Patient", none⟩,
      Except.ok ⟨201, "", some (JsonVal.obj []), "u"⟩)]
    (⟨"c", "f2", JsonVal.obj [], "Patient", none⟩,
      Except.error PyError.connectionError)
    [(⟨"d", "f3", JsonVal.obj [], "Patient", none⟩,
      Except.ok ⟨201, "", some (JsonVal.obj []), "u"⟩)]
    PyError.connectionError
    (by
      intro it h
      rcases List.mem_cons.mp h with heq | h
      · subst heq; exact ⟨_, rfl⟩
      · exact absurd h (List.not_mem_nil _))
    rfl

/-! ## Fetch-then-cascade-delete (claims about `delete_all`) -/

/-- Well-formedness of one fetched bundle entry: a dict with a `resource`
dict carrying string `resourceType` and `id` fields. -/
def EntryWF (e : JsonVal) : Prop :=
  ∃ efields rfields rt rid,
    e = JsonVal.obj efields ∧
    lookupAssoc efields "resource" = some (JsonVal.obj rfields) ∧
    lookupAssoc rfields "resourceType" = some (JsonVal.str rt) ∧
    lookupAssoc rfields "id" = some (JsonVal.str rid)

/-- The DELETE URLs the specification prescribes for a fetched collection:
skip every entry whose resource type is the diagnostic artifact
`OperationOutcome`; for each remaining entry one URL built from the base
URL, the resource's own type and its id.  This definition follows the
specification's words and is compared against the loop from the source. -/
def specDeleteUrls (base : String) : List JsonVal → List String
  | [] => []
  | e :: rest =>
    match e with
    | JsonVal.obj efields =>
      match lookupAssoc efields "resource" with
      | some (JsonVal.obj rfields) =>
        if isStrVal (lookupAssoc rfields "resourceType") "OperationOutcome" then
          specDeleteUrls base rest
        else
          match lookupAssoc rfields "resourceType", lookupAssoc rfields "id" with
          | some rt, some rid =>
            (base ++ "/" ++ pyStr rt ++ "/" ++ pyStr rid) :: specDeleteUrls base rest
          | _, _ => specDeleteUrls base rest
      | _ => specDeleteUrls base rest
    | _ => specDeleteUrls base rest

/-- A DELETE outcome that is processed without a raised exception: the
transport returns a response and the issue scan of its body succeeds. -/
def DelNormal (o : Except PyError HttpResponse) : Prop :=
  ∃ resp errs, o = Except.ok resp ∧
    errors_from_response (response_content resp) = Except.ok errs

/-- A DELETE outcome that `send_request` classifies successful: accepted
status code and no error issues in the body. -/
def DelSuccess (o : Except PyError HttpResponse) : Prop :=
  ∃ resp, o = Except.ok resp ∧ resp.status_code ∈ success_status "DELETE" ∧
    errors_from_response (response_content resp) = Except.ok []

lemma send_request_delete_run (cfg : ClientConfig) (url : String)
    (kw : CallKwargs) (resp : HttpResponse) (errs : List JsonVal)
    (hscan : errors_from_response (response_content resp) = Except.ok errs) :
    ∃ bdel r, send_request cfg "delete" url kw resp =
        Except.ok (sent_request_of cfg "delete" url kw, bdel, r) ∧
      (bdel = true ↔ DelSuccess (Except.ok resp)) := by
  have hupper : pyUpper "delete" = "DELETE" := rfl
  by_cases hmem : resp.status_code ∈ success_status "DELETE"
  · refine ⟨errs.isEmpty,
      ⟨resp.status_code, resp.url, response_content resp⟩, ?_, ?_⟩
    · simp only [send_request, hupper]
      rw [if_pos hmem, hscan]
    · constructor
      · intro hemp
        have herrs : errs = [] := by
          cases errs with
          | nil => rfl
          | cons a l => simp [List.isEmpty] at hemp
        refine ⟨resp, rfl, hmem, ?_⟩
        rw [hscan, herrs]
      · rintro ⟨resp', heq, hmem', hscan'⟩
        injection heq with h
        subst h
        rw [hscan] at hscan'
        injection hscan' with h2
        rw [h2]
        rfl
  · refine ⟨false,
      ⟨resp.status_code, resp.url, response_content resp⟩, ?_, ?_⟩
    · simp only [send_request, hupper]
      rw [if_neg hmem]
    · constructor
      · intro h; cases h
      · rintro ⟨resp', heq, hmem', _⟩
        injection heq with h
        subst h
        exact absurd hmem' hmem

lemma specDeleteUrls_cons_skip (base : String)
    (efields rfields : List (String × JsonVal)) (rest : List JsonVal)
    (hres : lookupAssoc efields "resource" = some (JsonVal.obj rfields))
    (hrt : lookupAssoc rfields "resourceType" =
      some (JsonVal.str "OperationOutcome")) :
    specDeleteUrls base (JsonVal.obj efields :: rest) =
      specDeleteUrls base rest := by
  simp [specDeleteUrls, hres, hrt, isStrVal, pyEqStr]

lemma specDeleteUrls_cons_keep (base : String)
    (efields rfields : List (String × JsonVal)) (rt rid : String)
    (rest : List JsonVal)
    (hres : lookupAssoc efields "resource" = some (JsonVal.obj rfields))
    (hrt : lookupAssoc rfields "resourceType" = some (JsonVal.str rt))
    (hid : lookupAssoc rfields "id" = some (JsonVal.str rid))
    (hne : rt ≠ "OperationOutcome") :
    specDeleteUrls base (JsonVal.obj efields :: rest) =
      (base ++ "/" ++ rt ++ "/" ++ rid) :: specDeleteUrls base rest := by
  have hc : isStrVal (some (JsonVal.str rt)) "OperationOutcome" = false := by
    simp only [isStrVal, pyEqStr]
    exact beq_eq_false_iff_ne.mpr hne
  simp [specDeleteUrls, hres, hrt, hid, hc, pyStr]

lemma delete_loop_spec (cfg : ClientConfig) (auth : Option String)
    (deletes : Nat → Except PyError HttpResponse)
    (hdel : ∀ j, DelNormal (deletes j)) :
    ∀ (entries : List JsonVal) (i : Nat) (s : Bool),
      (∀ e ∈ entries, EntryWF e) →
      ∃ b, delete_loop cfg auth deletes entries i s =
          Except.ok (b, specDeleteUrls cfg.base_url entries) ∧
        (b = true ↔ (s = true ∧
          ∀ j < (specDeleteUrls cfg.base_url entries).length,
            DelSuccess (deletes (i + j)))) := by
  intro entries
  induction entries with
  | nil =>
    intro i s _
    refine ⟨s, rfl, ?_⟩
    simp [specDeleteUrls]
  | cons e rest ih =>
    intro i s hwf
    obtain ⟨efields, rfields, rt, rid, he, hres, hrt, hid⟩ :=
      hwf e (List.mem_cons_self e rest)
    subst he
    have hwftail : ∀ x ∈ rest, EntryWF x :=
      fun x hx => hwf x (List.mem_cons_of_mem _ hx)
    have hsub : pySubscript (JsonVal.obj efields) "resource" =
        Except.ok (JsonVal.obj rfields) := by
      simp only [pySubscript, hres]
    have hget : pyDictGet (JsonVal.obj rfields) "resourceType" =
        Except.ok (some (JsonVal.str rt)) := by
      simp only [pyDictGet, hrt]
    by_cases hOO : rt = "OperationOutcome"
    · subst hOO
      obtain ⟨b, hloop, hiff⟩ := ih i s hwftail
      rw [specDeleteUrls_cons_skip cfg.base_url efields rfields rest hres hrt]
      refine ⟨b, ?_, hiff⟩
      simp [delete_loop, hsub, hget, isStrVal, pyEqStr, hloop]
    · have hc : isStrVal (some (JsonVal.str rt)) "OperationOutcome" = false := by
        simp only [isStrVal, pyEqStr]
        exact beq_eq_false_iff_ne.mpr hOO
      have hsub2 : pySubscript (JsonVal.obj rfields) "resourceType" =
          Except.ok (JsonVal.str rt) := by
        simp only [pySubscript, hrt]
      have hsub3 : pySubscript (JsonVal.obj rfields) "id" =
          Except.ok (JsonVal.str rid) := by
        simp only [pySubscript, hid]
      obtain ⟨respi, errsi, hdi, hscani⟩ := hdel i
      obtain ⟨bdel, rres, hsendi, hbdel⟩ := send_request_delete_run cfg
        (cfg.base_url ++ "/" ++ rt ++ "/" ++ rid)
        ⟨auth, []⟩ respi errsi hscani
      obtain ⟨b', hloop', hiff'⟩ := ih (i + 1) (bdel && s) hwftail
      rw [specDeleteUrls_cons_keep cfg.base_url efields rfields rt rid rest
        hres hrt hid hOO]
      refine ⟨b', ?_, ?_⟩
      · simp [delete_loop, hsub, hget, hc, hsub2, hsub3, hdi, hsendi, hloop', pyStr]
      · rw [hiff']
        simp only [List.length_cons, Bool.and_eq_true]
        constructor
        · rintro ⟨⟨hbd, hs⟩, hrest⟩
          refine ⟨hs, ?_⟩
          intro j hj
          cases j with
          | zero =>
            rw [Nat.add_zero, hdi]
            exact hbdel.mp hbd
          | succ j' =>
            have hj' : j' < (specDeleteUrls cfg.base_url rest).length := by omega
            have := hrest j' hj'
            have harith : i + 1 + j' = i + (j' + 1) := by omega
            rw [harith] at this
            exact this
        · rintro ⟨hs, hall⟩
          refine ⟨⟨?_, hs⟩, ?_⟩
          · apply hbdel.mpr
            rw [← hdi]
            have := hall 0 (by omega)
            rw [Nat.add_zero] at this
            exact this
          · intro j hj
            have := hall (j + 1) (by omega)
            have harith : i + (j + 1) = i + 1 + j := by omega
            rw [harith] at this
            exact this

/-- C7: when the fetch is classified successful and the fetched bundle's
entries are well-formed, `delete_all` issues exactly one DELETE per entry
whose resource type is not `OperationOutcome` — never one for an
`OperationOutcome` entry — each against `base_url/resourceType/id`, in
order; the overall boolean is the AND over all delete classifications (the
fetch already being successful), and a classified-failed delete does not
stop the remaining deletes (every prescribed URL is still requested). -/
theorem delete_all_cascade (cfg : ClientConfig) (endpoint : String)
    (kw : CallKwargs) (fresp : HttpResponse)
    (deletes : Nat → Except PyError HttpResponse)
    (sent : SentRequest) (result : SendResult)
    (fields : List (String × JsonVal)) (entries : List JsonVal)
    (hsend : send_request cfg "get" endpoint (delete_all_kwargs cfg kw) fresp =
      Except.ok (sent, true, result))
    (hbody : result.response = RespContent.json (JsonVal.obj fields))
    (hentries : lookupAssoc fields "entry" = some (JsonVal.arr entries))
    (hwf : ∀ e ∈ entries, EntryWF e)
    (hdel : ∀ j, DelNormal (deletes j)) :
    ∃ b, delete_all cfg endpoint kw (Except.ok fresp) deletes =
        Except.ok (b, specDeleteUrls cfg.base_url entries) ∧
      (b = true ↔ ∀ j < (specDeleteUrls cfg.base_url entries).length,
        DelSuccess (deletes j)) := by
  obtain ⟨b, hloop, hiff⟩ := delete_loop_spec cfg (delete_all_kwargs cfg kw).auth
    deletes hdel entries 0 true hwf
  refine ⟨b, ?_, ?_⟩
  · simp [delete_all, hsend, hbody, contentGet, pyDictGet, hentries, pyIter, hloop]
  · rw [hiff]
    simp only [Nat.zero_add, true_and]

/-- C7 witness: a fetched bundle with one `OperationOutcome` entry and one
`Patient` entry produces exactly one DELETE, against `b/Patient/p1`, and
overall success. -/
theorem delete_all_cascade_witness :
    delete_all ⟨"b", none, none⟩ "ep" ⟨none, []⟩
      (Except.ok ⟨200, "",
        some (JsonVal.obj [("entry", JsonVal.arr
          [JsonVal.obj [("resource", JsonVal.obj
            [("resourceType", JsonVal.str "OperationOutcome"),
             ("id", JsonVal.str "1")])],
           JsonVal.obj [("resource", JsonVal.obj
            [("resourceType", JsonVal.str "Patient"),
             ("id", JsonVal.str "p1")])]])]),
        "ru"⟩)
      (fun _ => Except.ok ⟨200, "", some (JsonVal.obj []), "du"⟩)
    = Except.ok (true, ["b/Patient/p1"]) := by
  obtain ⟨b, h1, h2⟩ := delete_all_cascade ⟨"b", none, none⟩ "ep" ⟨none, []⟩
    ⟨200, "",
      some (JsonVal.obj [("entry", JsonVal.arr
        [JsonVal.obj [("resource", JsonVal.obj
          [("resourceType", JsonVal.str "OperationOutcome"),
           ("id", JsonVal.str "1")])],
         JsonVal.obj [("resource", JsonVal.obj
          [("resourceType", JsonVal.str "Patient"),
           ("id", JsonVal.str "p1")])]])]),
      "ru"⟩
    (fun _ => Except.ok ⟨200, "", some (JsonVal.obj []), "du"⟩)
    (sent_request_of ⟨"b", none, none⟩ "get" "ep"
      (delete_all_kwargs ⟨"b", none, none⟩ ⟨none, []⟩))
    ⟨200, "ru",
      RespContent.json (JsonVal.obj [("entry", JsonVal.arr
        [JsonVal.obj [("resource", JsonVal.obj
          [("resourceType", JsonVal.str "OperationOutcome"),
           ("id", JsonVal.str "1")])],
         JsonVal.obj [("resource", JsonVal.obj
          [("resourceType", JsonVal.str "Patient"),
           ("id", JsonVal.str "p1")])]])])⟩
    [("entry", JsonVal.arr
      [JsonVal.obj [("resource", JsonVal.obj
        [("resourceType", JsonVal.str "OperationOutcome"),
         ("id", JsonVal.str "1")])],
       JsonVal.obj [("resource", JsonVal.obj
        [("resourceType", JsonVal.str "Patient"),
         ("id", JsonVal.str "p1")])]])]
    [JsonVal.obj [("resource", JsonVal.obj
      [("resourceType", JsonVal.str "OperationOutcome"),
       ("id", JsonVal.str "1")])],
     JsonVal.obj [("resource", JsonVal.obj
      [("resourceType", JsonVal.str "Patient"),
       ("id", JsonVal.str "p1")])]]
    rfl rfl rfl
    (by
      intro e he
      rcases List.mem_cons.mp he with h | h
      · subst h
        exact ⟨_, _, "OperationOutcome", "1", rfl, rfl, rfl, rfl⟩
      · rcases List.mem_cons.mp h with h | h
        · subst h
          exact ⟨_, _, "Patient", "p1", rfl, rfl, rfl, rfl⟩
        · exact absurd h (List.not_mem_nil _))
    (fun _ => ⟨⟨200, "", some (JsonVal.obj []), "du"⟩, [], rfl, rfl⟩)
  have hb : b = true := h2.mpr (by
    intro j hj
    exact ⟨⟨200, "", some (JsonVal.obj []), "du"⟩, rfl, by decide, rfl⟩)
  rw [hb] at h1
  exact h1

/-- C6 (amended): when the initial GET fetch is classified a failure and the
fetched body content is a JSON object (so the eager `.get("total")` call in
the debug logging succeeds), `delete_all` returns overall failure without
raising and issues zero DELETE requests.  When the failed fetch carries a
non-dict body — e.g. raw text — `delete_all` instead raises
`AttributeError` (see the counterexample). -/
theorem delete_all_fetch_failure (cfg : ClientConfig) (endpoint : String)
    (kw : CallKwargs) (fresp : HttpResponse)
    (deletes : Nat → Except PyError HttpResponse)
    (sent : SentRequest) (result : SendResult)
    (fields : List (String × JsonVal))
    (hsend : send_request cfg "get" endpoint (delete_all_kwargs cfg kw) fresp =
      Except.ok (sent, false, result))
    (hdict : result.response = RespContent.json (JsonVal.obj fields)) :
    delete_all cfg endpoint kw (Except.ok fresp) deletes =
      Except.ok (false, []) := by
  simp [delete_all, hsend, hdict, contentGet, pyDictGet]

/-- C6 counterexample: a fetch answered 404 with the raw-text body
`"Not Found"` makes `delete_all` raise `AttributeError` — the debug logging
calls `.get("total")` on the raw text before the failure check runs —
instead of returning overall failure, refuting the claim that a failed
fetch always yields a non-raising `False` return. -/
theorem delete_all_fetch_failure_cex :
    delete_all ⟨"b", none, none⟩ "ep" ⟨none, []⟩
      (Except.ok ⟨404, "Not Found", none, "ru"⟩)
      (fun _ => Except.ok ⟨200, "", some (JsonVal.obj []), "du"⟩)
    = Except.error PyError.attributeError := rfl

/-- C6 witness: a fetch answered 404 with a JSON-object body returns overall
failure with zero DELETE requests issued. -/
theorem delete_all_fetch_failure_witness :
    delete_all ⟨"b", none, none⟩ "ep" ⟨none, []⟩
      (Except.ok ⟨404, "x", some (JsonVal.obj []), "ru"⟩)
      (fun _ => Except.ok ⟨200, "", some (JsonVal.obj []), "du"⟩)
    = Except.ok (false, []) :=
  delete_all_fetch_failure ⟨"b", none, none⟩ "ep" ⟨none, []⟩
    ⟨404, "x", some (JsonVal.obj []), "ru"⟩
    (fun _ => Except.ok ⟨200, "", some (JsonVal.obj []), "du"⟩)
    (sent_request_of ⟨"b", none, none⟩ "get" "ep"
      (delete_all_kwargs ⟨"b", none, none⟩ ⟨none, []⟩))
    ⟨404, "ru", RespContent.json (JsonVal.obj [])⟩ [] rfl rfl

/-! ## Status probe (claims about `check_service_status`) -/

/-- The specification's notion of a down verdict: the single GET raised a
connection error, or it returned a status code of 300 or more. -/
def probeDown (outcome : ProbeOutcome) : Prop :=
  outcome = ProbeOutcome.connectionError ∨
    ∃ s t, outcome = ProbeOutcome.response s t ∧ 300 ≤ s

/-- C9: the probe reports down exactly when the single GET attempt raises a
connection error or returns a status of 300 or more; the client-level probe
exits with code 1 exactly when the verdict is down and exit-on-down was
requested, never with any other code, and only after logging the supplied
diagnostic message; the probe's session is configured with
`total=1, connect=1`. -/
theorem check_service_status_spec (outcome : ProbeOutcome)
    (exit_on_down : Bool) (log_msg : Option String) :
    (check_service_status outcome false = Except.ok true ↔ probeDown outcome) ∧
    ((client_check_service_status outcome exit_on_down log_msg).exit_code =
        some 1 ↔
      (check_service_status outcome false = Except.ok true ∧
        exit_on_down = true)) ∧
    ((client_check_service_status outcome exit_on_down log_msg).exit_code =
        none ∨
      (client_check_service_status outcome exit_on_down log_msg).exit_code =
        some 1) ∧
    ((client_check_service_status outcome exit_on_down log_msg).exit_code =
        some 1 →
      log_msg ∈
        (client_check_service_status outcome exit_on_down log_msg).error_logs) ∧
    check_service_status_session.total = 1 ∧
    check_service_status_session.connect = 1 := by
  cases outcome with
  | connectionError =>
    cases exit_on_down <;>
      simp [check_service_status, client_check_service_status, probeDown,
        check_service_status_session, requests_retry_session]
  | response s t =>
    by_cases hs : 300 ≤ s
    · cases exit_on_down <;>
        simp [check_service_status, client_check_service_status, probeDown, hs,
          check_service_status_session, requests_retry_session]
    · cases exit_on_down <;>
        simp [check_service_status, client_check_service_status, probeDown, hs,
          check_service_status_session, requests_retry_session]

/-- C9 witness: a connection error with exit-on-down requested terminates
with exit code 1. -/
theorem check_service_status_spec_witness :
    (client_check_service_status ProbeOutcome.connectionError true
      (some "service is down")).exit_code = some 1 :=
  ((check_service_status_spec ProbeOutcome.connectionError true
    (some "service is down")).2.1).mpr ⟨rfl, rfl⟩
